import Mathlib

/-!
Verification development for `dynsubst` (src/main.go): a tool replacing
placeholder tokens `{{[MOD:]Key}}` in a text by values looked up in an
external key-value store (AWS DynamoDB), optionally decrypted (AWS KMS).

The embedding models:
  * the two Go regexes `{{(\w+?:)?.+?}}` (outer scan in `main`) and
    `{{((?P<mod>\w+?):)?(?P<key>.+?)}}` (re-parse in `replaceFunc`),
    specialised to their leftmost-first (Perl-style) semantics:
    at a match start `{{`, the optional greedy group prefers to consume a
    lazy word run `\w+?` followed by `:`; the lazy key `.+?` then extends
    to the earliest `}}` (with `.` never matching a newline); if the
    grouped alternative cannot complete, the group is dropped;
  * `replaceFunc`, `dynamodbQuery` and `kmsDecrypt` from src/main.go,
    with the external collaborators (DynamoDB query, KMS decrypt) supplied
    as an explicit environment, and the calls made to them recorded in an
    explicit trace so that frame/effect claims are statable;
  * Go runtime faults (nil dereference, index out of range) as an explicit
    `panic` outcome, and Go `error` returns as an `err` outcome.

Strings are modelled as `List Char`; `String.data` converts literals.
-/

namespace Dynsubst

/-- Go strings, modelled as lists of characters. -/
abbrev Str := List Char

/-- Raw bytes (Go `[]byte`), modelled as a list of naturals. -/
abbrev Bytes := List Nat

/-- Go regexp `\w`: ASCII `[0-9A-Za-z_]` (Go regexps are ASCII-only for
`\w` unless unicode classes are requested). -/
def isWordChar (c : Char) : Bool :=
  c.isAlpha || c.isDigit || c = '_'

/-- Outcome of a Go function call in the model: a normal return value, a
returned `error`, or a runtime panic (nil dereference / out-of-range
index), which in Go aborts the whole process. -/
inductive GoResult (α : Type) where
  | ok (a : α)
  | err (msg : Str)
  | panic
deriving DecidableEq

/-- One call made to an external collaborator, recorded in the trace. -/
inductive Call where
  | query (table key : Str)
  | decrypt (blob : Bytes)
deriving DecidableEq

/-- The model of `*dynamodb.AttributeValue`: only the `S` (string) field
is used by the program; `S` is a `*string`, hence `Option`. -/
structure AttributeValue where
  S : Option Str
deriving DecidableEq

/-- The model of `*dynamodb.QueryOutput` as far as the program reads it:
`Count` (dereferenced `*int64`) and `Items`, a list of records; each Go
record is a `map[string]*dynamodb.AttributeValue`, modelled as an
association list. -/
structure QueryOutput where
  Count : Int
  Items : List (List (Str × AttributeValue))

/-- Result of `svc.Query`: either a transport/service error or an output. -/
inductive QueryResp where
  | err (msg : Str)
  | ok (out : QueryOutput)

/-- The external collaborators (DynamoDB and KMS), as pure behaviours.
`decrypt` returns the plaintext; Go's `string(res.Plaintext)` byte-to-
string conversion is absorbed into the collaborator returning `Str`. -/
structure Env where
  query : Str → Str → QueryResp
  decrypt : Bytes → Except Str Str

/-- Go map access on a missing key yields the zero value (a nil pointer);
this helper returns `none` in that case. -/
def lookupAttr (item : List (Str × AttributeValue)) (name : Str) :
    Option AttributeValue :=
  (item.find? (fun p => p.1 == name)).map (fun p => p.2)

/-- Name of the attribute read by `dynamodbQuery`. -/
def valueAttr : Str := "Value".data

/-- The error message built by `dynamodbQuery` when the record count is
not one: `fmt.Errorf("error querying for \"%v\": %v occurrences found",
key, *resp.Count)`. -/
def countErrMsg (key : Str) (count : Int) : Str :=
  "error querying for \"".data ++ key ++ "\": ".data ++
    (toString count).data ++ " occurrences found".data

/-- Model of `dynamodbQuery` (src/main.go:171-200).  Returns the string
value of the `Value` attribute for the single record matching `key`.
`resp.Items[0]` on an empty slice, `.S` through the nil pointer returned
by map access on a missing `"Value"` key, and `*s` on a nil `S` are Go
runtime faults, modelled as `panic`.  The single `svc.Query` call is
recorded in the trace. -/
def dynamodbQuery (env : Env) (table key : Str) : GoResult Str × List Call :=
  match env.query table key with
  | QueryResp.err e => (GoResult.err e, [Call.query table key])
  | QueryResp.ok out =>
    if out.Count ≠ 1 then
      (GoResult.err (countErrMsg key out.Count), [Call.query table key])
    else
      match out.Items.head? with
      | none => (GoResult.panic, [Call.query table key])
      | some item =>
        match lookupAttr item valueAttr with
        | none => (GoResult.panic, [Call.query table key])
        | some av =>
          match av.S with
          | none => (GoResult.panic, [Call.query table key])
          | some s => (GoResult.ok s, [Call.query table key])

/-- Base64 value of one alphabet character (Go `encoding/base64`
standard alphabet `A-Za-z0-9+/`). -/
def b64Val (c : Char) : Option Nat :=
  if 'A' ≤ c ∧ c ≤ 'Z' then some (c.toNat - 65)
  else if 'a' ≤ c ∧ c ≤ 'z' then some (c.toNat - 97 + 26)
  else if '0' ≤ c ∧ c ≤ '9' then some (c.toNat - 48 + 52)
  else if c = '+' then some 62
  else if c = '/' then some 63
  else none

/-- Quadruple decoder of Go `encoding/base64`, applied after newline
characters have been skipped (see `base64DecodeString`): the input is
consumed in quadruples of alphabet characters; `=` padding is allowed
only in the last quadruple (`xx==` yields one byte, `xxx=` two); any
other character, or a length not a multiple of four, is a
`CorruptInputError` (`none`). -/
def base64DecodeQuads : List Char → Option Bytes
  | [] => some []
  | a :: b :: c :: d :: rest =>
    match b64Val a, b64Val b with
    | some va, some vb =>
      if c = '=' then
        if d = '=' ∧ rest = [] then some [va * 4 + vb / 16] else none
      else
        match b64Val c with
        | some vc =>
          if d = '=' then
            if rest = [] then
              some [va * 4 + vb / 16, (vb % 16) * 16 + vc / 4]
            else none
          else
            match b64Val d with
            | some vd =>
              (base64DecodeQuads rest).map
                (fun t => (va * 4 + vb / 16) :: ((vb % 16) * 16 + vc / 4) ::
                  ((vc % 4) * 64 + vd) :: t)
            | none => none
        | none => none
    | _, _ => none
  | _ => none

/-- Go `base64.StdEncoding.DecodeString` on a string.  Go's decoder
(`decodeQuantum`) silently skips `\r` and `\n` wherever they occur —
between alphabet characters, inside the padding, or trailing — so the
decode is the quadruple decode of the input with newline characters
removed; every other non-alphabet character is a `CorruptInputError`. -/
def base64DecodeString (s : Str) : Option Bytes :=
  base64DecodeQuads (s.filter (fun c => !(c == '\n' || c == '\r')))

/-- Model of `kmsDecrypt` (src/main.go:202-219): base64-decode the value
(a decode error returns before any KMS call), then call the decryption
collaborator; its call is recorded in the trace. -/
def kmsDecrypt (env : Env) (value : Str) : GoResult Str × List Call :=
  match base64DecodeString value with
  | none => (GoResult.err ("illegal base64 data".data), [])
  | some decoded =>
    match env.decrypt decoded with
    | Except.error e => (GoResult.err e, [Call.decrypt decoded])
    | Except.ok plaintext => (GoResult.ok plaintext, [Call.decrypt decoded])

/-- The three modifier names (src/main.go:24-37). -/
def modGet : Str := "GET".data

/-- Modifier selecting lookup-then-KMS-decrypt. -/
def modDecrypt : Str := "DECRYPT".data

/-- Modifier meant to strip itself and re-emit the placeholder. -/
def modSkip : Str := "SKIP".data

/-- Scan for the lazy closing `}}` of a token body: returns the body
characters before the earliest `}}` and the text after it, failing on a
newline (`.` in the Go regexes does not match `\n`) or if no `}}`
follows. -/
def findClose : List Char → Option (Str × Str)
  | [] => none
  | c :: rest =>
    if c = '}' ∧ rest.head? = some '}' then some ([], rest.tail)
    else if c = '\n' then none
    else (findClose rest).map (fun p => (c :: p.1, p.2))

/-- The lazy key `.+?}}`: at least one non-newline character up to the
earliest `}}`. -/
def findBody (l : List Char) : Option (Str × Str) :=
  match l with
  | [] => none
  | c :: rest =>
    if c = '\n' then none
    else (findClose rest).map (fun p => (c :: p.1, p.2))

/-- Leftmost-first match of `((\w+?:)?)(.+?)}}` against the text that
follows a `{{`: the greedy optional group prefers to consume a word run
followed by `:` (the run is unique because `:` is not a word character);
if the grouped alternative cannot complete a body, the group is dropped.
Returns the optional modifier, the key, and the text after the span. -/
def tryMatchAfterBraces (s : List Char) : Option (Option Str × Str × Str) :=
  let run := s.takeWhile isWordChar
  let rest := s.dropWhile isWordChar
  if run ≠ [] ∧ rest.head? = some ':' then
    match findBody rest.tail with
    | some (key, after) => some (some run, key, after)
    | none => (findBody s).map (fun p => (none, p.1, p.2))
  else
    (findBody s).map (fun p => (none, p.1, p.2))

/-- Model of `re.FindStringSubmatch` with
`{{((?P<mod>\w+?):)?(?P<key>.+?)}}` (src/main.go:137-138): the leftmost
match's `mod` and `key` groups. -/
def findStringSubmatch : List Char → Option (Option Str × Str)
  | [] => none
  | c :: rest =>
    if c = '{' ∧ rest.head? = some '{' then
      match tryMatchAfterBraces rest.tail with
      | some (m, key, _) => some (m, key)
      | none => findStringSubmatch rest
    else findStringSubmatch rest

/-- Go `FindStringSubmatch` yields `""` for a non-participating group. -/
def modString : Option Str → Str
  | some m => m
  | none => []

/-- The text inside a matched span between `{{` and `}}`. -/
def matchInner : Option Str → Str → Str
  | some m, key => m ++ ':' :: key
  | none, key => key

/-- The full matched span handed to `replaceFunc` by
`ReplaceAllStringFunc`. -/
def mkSpan (m : Option Str) (key : Str) : Str :=
  '{' :: '{' :: (matchInner m key ++ ('}' :: '}' :: []))

/-- Model of `replaceFunc` (src/main.go:134-168).  The input span is
re-parsed with the inner regex; if `mod` is `SKIP` the function assigns
`repl = "{{<key>}}"` but then executes `return ""` (the assignment is
dead); otherwise the key is looked up, a lookup error degrades to `""`;
a `DECRYPT` modifier then pipes the value through `kmsDecrypt`, whose
error also degrades to `""`.  If the span did not re-match,
`FindStringSubmatch` returns nil and `matches[i]` would panic. -/
def replaceFunc (env : Env) (table : Str) (input : Str) :
    GoResult Str × List Call :=
  match findStringSubmatch input with
  | none => (GoResult.panic, [])
  | some (modOpt, key) =>
    let mod := modString modOpt
    if mod = modSkip then
      (GoResult.ok [], [])
    else
      match dynamodbQuery env table key with
      | (GoResult.err _, calls) => (GoResult.ok [], calls)
      | (GoResult.panic, calls) => (GoResult.panic, calls)
      | (GoResult.ok repl, calls) =>
        if mod = modDecrypt then
          match kmsDecrypt env repl with
          | (GoResult.ok plain, calls2) => (GoResult.ok plain, calls ++ calls2)
          | (GoResult.err _, calls2) => (GoResult.ok [], calls ++ calls2)
          | (GoResult.panic, calls2) => (GoResult.panic, calls ++ calls2)
        else
          (GoResult.ok repl, calls)

/-- Model of `re.ReplaceAllStringFunc(text, replaceFunc)`
(src/main.go:121-122): scan left to right; at each position try to match
the token regex; on a match, hand the span to `replaceFunc` and continue
after the span; otherwise copy one character.  A panic from `replaceFunc`
aborts the pass.  The recursion is bounded by a fuel argument: every step
consumes at least one character, so `fuel = text.length` (see
`substitute`) never runs out and the fuel-exhausted equation is
unreachable. -/
def replaceAllF (env : Env) (table : Str) : Nat → List Char →
    GoResult Str × List Call
  | _, [] => (GoResult.ok [], [])
  | 0, l => (GoResult.ok l, [])
  | fuel + 1, c :: rest =>
    if c = '{' ∧ rest.head? = some '{' then
      match tryMatchAfterBraces rest.tail with
      | some (modOpt, key, after) =>
        match replaceFunc env table (mkSpan modOpt key) with
        | (GoResult.ok repl, calls) =>
          match replaceAllF env table fuel after with
          | (GoResult.ok out, calls2) =>
            (GoResult.ok (repl ++ out), calls ++ calls2)
          | (r, calls2) => (r, calls ++ calls2)
        | (r, calls) => (r, calls)
      | none =>
        match replaceAllF env table fuel rest with
        | (GoResult.ok out, calls) => (GoResult.ok (c :: out), calls)
        | (r, calls) => (r, calls)
    else
      match replaceAllF env table fuel rest with
      | (GoResult.ok out, calls) => (GoResult.ok (c :: out), calls)
      | (r, calls) => (r, calls)

/-- The Document Substitution Pass: one left-to-right scan-and-replace
traversal of `text` against `table` (spec §4.5; src/main.go:121-122). -/
def substitute (env : Env) (table text : Str) : GoResult Str × List Call :=
  replaceAllF env table text.length text

/-- Whether any substring of `l` is matched by the token regex (the scan
finds a match at some start position). -/
def hasMatch : List Char → Bool
  | [] => false
  | c :: rest =>
    if c = '{' ∧ rest.head? = some '{' then
      (tryMatchAfterBraces rest.tail).isSome || hasMatch rest
    else hasMatch rest

/-- Well-formedness of one query response, as assumed by the totality
claims: a single-record response must carry a string `Value` attribute
(the program reads it without any presence check). -/
def respWF : QueryResp → Bool
  | QueryResp.err _ => true
  | QueryResp.ok out =>
    decide (out.Count ≠ 1) ||
      (match out.Items.head? with
       | none => false
       | some item =>
         match lookupAttr item valueAttr with
         | none => false
         | some av => av.S.isSome)

/-- Every response of the key-value collaborator is well formed. -/
def WFEnv (env : Env) : Prop :=
  ∀ table key, respWF (env.query table key) = true

/-- Every `dynamodbQuery` invocation records exactly one query call. -/
theorem dynamodbQuery_calls (env : Env) (table key : Str) :
    (dynamodbQuery env table key).snd = [Call.query table key] := by
  unfold dynamodbQuery
  rcases env.query table key with e | out
  · rfl
  · dsimp only
    split
    · rfl
    · split
      · rfl
      · split
        · rfl
        · split <;> rfl

/-- Under a well-formed response, `dynamodbQuery` returns a value or an
error, never a panic. -/
theorem dynamodbQuery_ok_or_err (env : Env) (table key : Str)
    (h : respWF (env.query table key) = true) :
    (∃ s, (dynamodbQuery env table key).fst = GoResult.ok s) ∨
      (∃ e, (dynamodbQuery env table key).fst = GoResult.err e) := by
  unfold dynamodbQuery
  unfold respWF at h
  rcases hq : env.query table key with e | out
  · exact Or.inr ⟨e, rfl⟩
  · rw [hq] at h
    dsimp only at h ⊢
    by_cases hc : out.Count ≠ 1
    · rw [if_pos hc]
      exact Or.inr ⟨countErrMsg key out.Count, rfl⟩
    · rw [if_neg hc]
      rw [decide_eq_false hc, Bool.false_or] at h
      rcases hi : out.Items.head? with _ | item <;> rw [hi] at h <;>
        dsimp only at h ⊢
      · cases h
      · rcases ha : lookupAttr item valueAttr with _ | av <;> rw [ha] at h <;>
          dsimp only at h ⊢
        · cases h
        · rcases hs : av.S with _ | s <;> rw [hs] at h <;> dsimp only at h ⊢
          · cases h
          · exact Or.inl ⟨s, rfl⟩

/-- `kmsDecrypt` has no panicking path. -/
theorem kmsDecrypt_ne_panic (env : Env) (v : Str) :
    (kmsDecrypt env v).fst ≠ GoResult.panic := by
  unfold kmsDecrypt
  cases hb : base64DecodeString v with
  | none => simp
  | some d => cases hd : env.decrypt d <;> simp [hd]

/-- No newline occurs in a body produced by `findClose` (bodies are
matched by `.`, which excludes newlines). -/
theorem findClose_no_newline : ∀ {l b r : Str},
    findClose l = some (b, r) → '\n' ∉ b := by
  intro l
  induction l with
  | nil => intro b r h; simp [findClose] at h
  | cons c rest ih =>
    intro b r h
    simp only [findClose] at h
    by_cases h1 : c = '}' ∧ rest.head? = some '}'
    · rw [if_pos h1] at h
      simp only [Option.some.injEq, Prod.mk.injEq] at h
      rcases h with ⟨hb, -⟩
      subst hb
      simp
    · rw [if_neg h1] at h
      by_cases h2 : c = '\n'
      · rw [if_pos h2] at h; cases h
      · rw [if_neg h2] at h
        rcases hfc : findClose rest with _ | ⟨b2, r2⟩ <;> rw [hfc] at h
        · cases h
        · simp only [Option.map_some', Option.some.injEq, Prod.mk.injEq] at h
          rcases h with ⟨hb, -⟩
          subst hb
          intro hm
          rcases List.mem_cons.mp hm with hceq | hmem
          · exact h2 hceq.symm
          · exact ih hfc hmem

/-- No newline occurs in a body produced by `findBody`. -/
theorem findBody_no_newline {l b r : Str} (h : findBody l = some (b, r)) :
    '\n' ∉ b := by
  unfold findBody at h
  cases l with
  | nil => cases h
  | cons c rest =>
    dsimp only at h
    by_cases h2 : c = '\n'
    · rw [if_pos h2] at h; cases h
    · rw [if_neg h2] at h
      rcases hfc : findClose rest with _ | ⟨b2, r2⟩ <;> rw [hfc] at h
      · cases h
      · simp only [Option.map_some', Option.some.injEq, Prod.mk.injEq] at h
        rcases h with ⟨hb, -⟩
        subst hb
        intro hm
        rcases List.mem_cons.mp hm with hceq | hmem
        · exact h2 hceq.symm
        · exact findClose_no_newline hfc hmem

/-- A `findBody` body (`.+?`) is nonempty. -/
theorem findBody_ne_nil {l b r : Str} (h : findBody l = some (b, r)) :
    b ≠ [] := by
  unfold findBody at h
  cases l with
  | nil => cases h
  | cons c rest =>
    dsimp only at h
    by_cases h2 : c = '\n'
    · rw [if_pos h2] at h; cases h
    · rw [if_neg h2] at h
      rcases hfc : findClose rest with _ | ⟨b2, r2⟩ <;> rw [hfc] at h
      · cases h
      · simp only [Option.map_some', Option.some.injEq, Prod.mk.injEq] at h
        rcases h with ⟨hb, -⟩
        subst hb
        simp

/-- `noClose l` holds when `l` contains no two consecutive closing
braces. -/
def noClose : List Char → Bool
  | [] => true
  | [_] => true
  | c :: d :: rest => if c = '}' ∧ d = '}' then false else noClose (d :: rest)

/-- `noClose` is preserved by dropping the head. -/
theorem noClose_tail {c : Char} {l : Str} (h : noClose (c :: l) = true) :
    noClose l = true := by
  cases l with
  | nil => rfl
  | cons d t =>
    simp only [noClose] at h
    by_cases h1 : c = '}' ∧ d = '}'
    · rw [if_pos h1] at h; cases h
    · rwa [if_neg h1] at h

/-- A clean body (no newline, no internal `}}`, not ending in `}`)
followed by `}}` is exactly what `findClose` recovers. -/
theorem findClose_clean : ∀ {l : Str}, '\n' ∉ l → noClose l = true →
    l.getLast? ≠ some '}' → ∀ r : Str,
    findClose (l ++ '}' :: '}' :: r) = some (l, r) := by
  intro l
  induction l with
  | nil =>
    intro _ _ _ r
    simp [findClose]
  | cons c t ih =>
    intro hn hc hl r
    have hcn : c ≠ '\n' := fun h => hn (h ▸ List.mem_cons_self c t)
    have hcond : ¬(c = '}' ∧ (t ++ '}' :: '}' :: r).head? = some '}') := by
      cases t with
      | nil =>
        rintro ⟨rfl, -⟩
        exact hl rfl
      | cons d t2 =>
        rintro ⟨hc1, hd⟩
        simp only [List.cons_append, List.head?_cons, Option.some.injEq] at hd
        simp only [noClose, hc1, hd, and_self, if_true] at hc
        exact Bool.false_ne_true hc
    have ht : findClose (t ++ '}' :: '}' :: r) = some (t, r) := by
      cases t with
      | nil => simp [findClose]
      | cons d t2 =>
        exact ih (fun h => hn (List.mem_cons_of_mem c h)) (noClose_tail hc)
          (by rw [← List.getLast?_cons_cons (a := c)]; exact hl) r
    simp only [List.cons_append, findClose, List.append_eq]
    rw [if_neg hcond, if_neg hcn, ht, Option.map_some']

/-- A clean nonempty body followed by `}}` is exactly what `findBody`
recovers. -/
theorem findBody_clean {l : Str} (h0 : l ≠ []) (hn : '\n' ∉ l)
    (hc : noClose l = true) (hl : l.getLast? ≠ some '}') (r : Str) :
    findBody (l ++ '}' :: '}' :: r) = some (l, r) := by
  cases l with
  | nil => exact absurd rfl h0
  | cons c t =>
    have hcn : c ≠ '\n' := fun h => hn (h ▸ List.mem_cons_self c t)
    have ht : findClose (t ++ '}' :: '}' :: r) = some (t, r) := by
      cases t with
      | nil => simp [findClose]
      | cons d t2 =>
        exact findClose_clean (fun h => hn (List.mem_cons_of_mem c h))
          (noClose_tail hc)
          (by rw [← List.getLast?_cons_cons (a := c)]; exact hl) r
    simp only [List.cons_append, findBody, List.append_eq]
    rw [if_neg hcn, ht, Option.map_some']

/-- As long as no newline precedes it, an appended `}}` guarantees that
`findClose` succeeds. -/
theorem findClose_append_ne_none : ∀ {l : Str}, '\n' ∉ l → ∀ r : Str,
    findClose (l ++ '}' :: '}' :: r) ≠ none := by
  intro l
  induction l with
  | nil => intro _ r; simp [findClose]
  | cons c t ih =>
    intro hn r
    have hcn : c ≠ '\n' := fun h => hn (h ▸ List.mem_cons_self c t)
    simp only [List.cons_append, findClose, List.append_eq]
    by_cases h1 : c = '}' ∧ (t ++ '}' :: '}' :: r).head? = some '}'
    · rw [if_pos h1]; simp
    · rw [if_neg h1, if_neg hcn]
      rcases hfc : findClose (t ++ '}' :: '}' :: r) with _ | ⟨b2, r2⟩
      · exact absurd hfc (ih (fun h => hn (List.mem_cons_of_mem c h)) r)
      · simp

/-- Word runs taken by the grammar contain no newline. -/
theorem takeWhile_word_no_newline (s : Str) :
    '\n' ∉ s.takeWhile isWordChar := by
  intro h
  have := List.mem_takeWhile_imp h
  exact absurd this (by decide)

/-- `takeWhile` passes over a block that wholly satisfies the predicate. -/
theorem takeWhile_append_all {p : Char → Bool} : ∀ (l r : Str),
    (∀ c ∈ l, p c = true) → (l ++ r).takeWhile p = l ++ r.takeWhile p := by
  intro l
  induction l with
  | nil => intro r _; rfl
  | cons c t ih =>
    intro r h
    have hc : p c = true := h c (List.mem_cons_self c t)
    simp only [List.cons_append, List.takeWhile_cons, hc, if_true]
    rw [ih r (fun x hx => h x (List.mem_cons_of_mem c hx))]

/-- `dropWhile` passes over a block that wholly satisfies the predicate. -/
theorem dropWhile_append_all {p : Char → Bool} : ∀ (l r : Str),
    (∀ c ∈ l, p c = true) → (l ++ r).dropWhile p = r.dropWhile p := by
  intro l
  induction l with
  | nil => intro r _; rfl
  | cons c t ih =>
    intro r h
    have hc : p c = true := h c (List.mem_cons_self c t)
    simp only [List.cons_append, List.dropWhile_cons, hc, if_true]
    exact ih r (fun x hx => h x (List.mem_cons_of_mem c hx))

/-- The head of a `dropWhile` residue fails the predicate. -/
theorem dropWhile_head_false {p : Char → Bool} : ∀ {l : Str} {c : Char}
    {t : Str}, l.dropWhile p = c :: t → p c = false := by
  intro l
  induction l with
  | nil => intro c t h; cases h
  | cons a l2 ih =>
    intro c t h
    rw [List.dropWhile_cons] at h
    by_cases ha : p a
    · rw [if_pos ha] at h; exact ih h
    · rw [if_neg ha] at h
      injection h with h1 h2
      subst h1
      simpa using ha

/-- A word run followed by `:` and a successful body is matched with the
run as modifier. -/
theorem tryMatch_with_mod {m rest k a : Str}
    (hm : ∀ c ∈ m, isWordChar c = true) (h0 : m ≠ [])
    (hb : findBody rest = some (k, a)) :
    tryMatchAfterBraces (m ++ ':' :: rest) = some (some m, k, a) := by
  have htw : (m ++ ':' :: rest).takeWhile isWordChar = m := by
    rw [takeWhile_append_all m (':' :: rest) hm, List.takeWhile_cons]
    rw [if_neg (by decide : ¬(isWordChar ':' = true))]
    simp
  have hdw : (m ++ ':' :: rest).dropWhile isWordChar = ':' :: rest := by
    rw [dropWhile_append_all m (':' :: rest) hm, List.dropWhile_cons]
    rw [if_neg (by decide : ¬(isWordChar ':' = true))]
  simp only [tryMatchAfterBraces, htw, hdw, List.head?_cons, List.tail_cons,
    hb]
  simp [h0]

/-- When no modifier prefix is present, a successful body is matched with
the modifier group absent. -/
theorem tryMatch_no_mod {s k a : Str}
    (hcond : ¬(s.takeWhile isWordChar ≠ [] ∧
      (s.dropWhile isWordChar).head? = some ':'))
    (hb : findBody s = some (k, a)) :
    tryMatchAfterBraces s = some (none, k, a) := by
  simp only [tryMatchAfterBraces]
  rw [if_neg hcond, hb, Option.map_some']

/-- The inner text of a successful match is nonempty and newline-free. -/
theorem tryMatch_inner_facts {s : Str} {m : Option Str} {k a : Str}
    (h : tryMatchAfterBraces s = some (m, k, a)) :
    '\n' ∉ matchInner m k ∧ matchInner m k ≠ [] := by
  simp only [tryMatchAfterBraces] at h
  by_cases hcond : s.takeWhile isWordChar ≠ [] ∧
      (s.dropWhile isWordChar).head? = some ':'
  · rw [if_pos hcond] at h
    rcases hfb : findBody (s.dropWhile isWordChar).tail with _ | ⟨k2, a2⟩ <;>
      rw [hfb] at h
    · rcases hfs : findBody s with _ | ⟨k3, a3⟩ <;> rw [hfs] at h
      · cases h
      · simp only [Option.map_some', Option.some.injEq, Prod.mk.injEq] at h
        rcases h with ⟨rfl, rfl, -⟩
        exact ⟨findBody_no_newline hfs, findBody_ne_nil hfs⟩
    · simp only [Option.some.injEq, Prod.mk.injEq] at h
      rcases h with ⟨rfl, rfl, -⟩
      constructor
      · intro hmem
        simp only [matchInner] at hmem
        rcases List.mem_append.mp hmem with h1 | h2
        · exact takeWhile_word_no_newline s h1
        · rcases List.mem_cons.mp h2 with h3 | h4
          · exact absurd h3 (by decide)
          · exact findBody_no_newline hfb h4
      · simp only [matchInner]
        intro hnil
        exact hcond.1 (List.append_eq_nil.mp hnil).1
  · rw [if_neg hcond] at h
    rcases hfs : findBody s with _ | ⟨k3, a3⟩ <;> rw [hfs] at h
    · cases h
    · simp only [Option.map_some', Option.some.injEq, Prod.mk.injEq] at h
      rcases h with ⟨rfl, rfl, -⟩
      exact ⟨findBody_no_newline hfs, findBody_ne_nil hfs⟩

/-- The span rebuilt from a successful match re-matches when `replaceFunc`
re-parses it (all branches of the retry end in a successful body). -/
theorem tryMatch_span_ne_none {s : Str} {m : Option Str} {k a : Str}
    (h : tryMatchAfterBraces s = some (m, k, a)) :
    tryMatchAfterBraces (matchInner m k ++ '}' :: '}' :: []) ≠ none := by
  obtain ⟨hnl, hne⟩ := tryMatch_inner_facts h
  rcases hi : matchInner m k with _ | ⟨c, t⟩
  · exact absurd hi hne
  · rw [hi] at hnl
    have hcn : c ≠ '\n' := fun hh => hnl (hh ▸ List.mem_cons_self c t)
    have htn : '\n' ∉ t := fun hh => hnl (List.mem_cons_of_mem c hh)
    have hfb : findBody ((c :: t) ++ '}' :: '}' :: []) ≠ none := by
      simp only [List.cons_append, findBody, List.append_eq]
      rw [if_neg hcn]
      rcases hfc : findClose (t ++ '}' :: '}' :: []) with _ | ⟨b2, r2⟩
      · exact absurd hfc (findClose_append_ne_none htn [])
      · simp
    rcases hfb2 : findBody ((c :: t) ++ '}' :: '}' :: []) with _ | ⟨kk, aa⟩
    · exact absurd hfb2 hfb
    · simp only [tryMatchAfterBraces]
      by_cases hcond : ((c :: t) ++ '}' :: '}' :: []).takeWhile isWordChar ≠ []
          ∧ (((c :: t) ++ '}' :: '}' :: []).dropWhile isWordChar).head? =
            some ':'
      · rw [if_pos hcond]
        rcases findBody (((c :: t) ++ '}' :: '}' :: []).dropWhile
            isWordChar).tail with _ | ⟨k2, a2⟩
        · rw [hfb2]; simp
        · simp
      · rw [if_neg hcond, hfb2]; simp

/-- Under a well-formed collaborator, `replaceFunc` applied to a rebuilt
span never panics: the span re-matches, the lookup returns a value or an
error, and `kmsDecrypt` cannot panic. -/
theorem replaceFunc_span_ok {env : Env} (hwf : WFEnv env) (table : Str)
    {s : Str} {m : Option Str} {k a : Str}
    (h : tryMatchAfterBraces s = some (m, k, a)) :
    ∃ out calls, replaceFunc env table (mkSpan m k) =
      (GoResult.ok out, calls) := by
  have hfss : ∃ m2 k2, findStringSubmatch (mkSpan m k) = some (m2, k2) := by
    unfold mkSpan
    simp only [findStringSubmatch, List.head?_cons, List.tail_cons]
    rw [if_pos (by simp)]
    rcases htm : tryMatchAfterBraces (matchInner m k ++ '}' :: '}' :: [])
      with _ | ⟨m2, k2, a2⟩
    · exact absurd htm (tryMatch_span_ne_none h)
    · exact ⟨m2, k2, rfl⟩
  obtain ⟨m2, k2, hfss⟩ := hfss
  unfold replaceFunc
  rw [hfss]
  dsimp only
  by_cases hskip : modString m2 = modSkip
  · rw [if_pos hskip]
    exact ⟨[], [], rfl⟩
  · rw [if_neg hskip]
    rcases hq : dynamodbQuery env table k2 with ⟨r, calls⟩
    rcases dynamodbQuery_ok_or_err env table k2 (hwf table k2)
      with ⟨v, hv⟩ | ⟨e, hv⟩ <;> rw [hq] at hv <;> dsimp only at hv <;>
        subst hv
    · dsimp only
      by_cases hdec : modString m2 = modDecrypt
      · rw [if_pos hdec]
        rcases hk : kmsDecrypt env v with ⟨kr, kcalls⟩
        have hknp := kmsDecrypt_ne_panic env v
        rw [hk] at hknp
        rcases kr with p | e2 | _
        · exact ⟨p, calls ++ kcalls, rfl⟩
        · exact ⟨[], calls ++ kcalls, rfl⟩
        · exact absurd rfl hknp
      · rw [if_neg hdec]
        exact ⟨v, calls, rfl⟩
    · exact ⟨[], calls, rfl⟩

/-- Under a well-formed collaborator, the scan always returns a complete
result, whatever the fuel. -/
theorem replaceAllF_ok {env : Env} (hwf : WFEnv env) (table : Str) :
    ∀ (fuel : Nat) (l : Str), ∃ out calls,
      replaceAllF env table fuel l = (GoResult.ok out, calls) := by
  intro fuel
  induction fuel with
  | zero =>
    intro l
    cases l with
    | nil => exact ⟨[], [], rfl⟩
    | cons c rest => exact ⟨c :: rest, [], rfl⟩
  | succ f ih =>
    intro l
    cases l with
    | nil => exact ⟨[], [], rfl⟩
    | cons c rest =>
      simp only [replaceAllF]
      by_cases hbr : c = '{' ∧ rest.head? = some '{'
      · rw [if_pos hbr]
        rcases htm : tryMatchAfterBraces rest.tail with _ | ⟨m, k, after⟩ <;>
          dsimp only
        · obtain ⟨out, calls, hrec⟩ := ih rest
          rw [hrec]
          exact ⟨c :: out, calls, rfl⟩
        · obtain ⟨ro, rc, hrf⟩ := replaceFunc_span_ok hwf table htm
          rw [hrf]
          obtain ⟨out, calls, hrec⟩ := ih after
          rw [hrec]
          exact ⟨ro ++ out, rc ++ calls, rfl⟩
      · rw [if_neg hbr]
        obtain ⟨out, calls, hrec⟩ := ih rest
        rw [hrec]
        exact ⟨c :: out, calls, rfl⟩

/-- A text in which the token regex matches nowhere is copied unchanged,
with no external calls. -/
theorem replaceAllF_no_match {env : Env} {table : Str} : ∀ (fuel : Nat)
    (l : Str), l.length ≤ fuel → hasMatch l = false →
    replaceAllF env table fuel l = (GoResult.ok l, []) := by
  intro fuel
  induction fuel with
  | zero =>
    intro l hl _
    cases l with
    | nil => rfl
    | cons c rest => simp at hl
  | succ f ih =>
    intro l hl hm
    cases l with
    | nil => rfl
    | cons c rest =>
      have hr : rest.length ≤ f := by
        simpa [List.length_cons, Nat.succ_le_succ_iff] using hl
      simp only [hasMatch] at hm
      simp only [replaceAllF]
      by_cases hbr : c = '{' ∧ rest.head? = some '{'
      · rw [if_pos hbr] at hm ⊢
        rcases htm : tryMatchAfterBraces rest.tail with _ | x <;> rw [htm] at hm <;>
          dsimp only
        · simp only [Option.isSome_none, Bool.false_or] at hm
          rw [ih rest hr hm]
        · simp at hm
      · rw [if_neg hbr] at hm ⊢
        rw [ih rest hr hm]

/-- Once the span has been re-parsed, `replaceFunc` is the modifier
dispatch over the parsed modifier and key. -/
theorem replaceFunc_eq_dispatch {env : Env} {table input : Str}
    {modOpt : Option Str} {key : Str}
    (h : findStringSubmatch input = some (modOpt, key)) :
    replaceFunc env table input =
      (if modString modOpt = modSkip then (GoResult.ok [], [])
       else
         match dynamodbQuery env table key with
         | (GoResult.err _e, calls) => (GoResult.ok [], calls)
         | (GoResult.panic, calls) => (GoResult.panic, calls)
         | (GoResult.ok repl, calls) =>
           if modString modOpt = modDecrypt then
             match kmsDecrypt env repl with
             | (GoResult.ok plain, calls2) =>
               (GoResult.ok plain, calls ++ calls2)
             | (GoResult.err _e2, calls2) => (GoResult.ok [], calls ++ calls2)
             | (GoResult.panic, calls2) => (GoResult.panic, calls ++ calls2)
           else (GoResult.ok repl, calls)) := by
  unfold replaceFunc
  rw [h]

/-- A text that is exactly one matched span substitutes to the result of
`replaceFunc` on that span. -/
theorem substitute_single {env : Env} {table s : Str} {m : Option Str}
    {K : Str} (h : tryMatchAfterBraces s = some (m, K, [])) :
    substitute env table ('{' :: '{' :: s) =
      replaceFunc env table (mkSpan m K) := by
  unfold substitute
  show replaceAllF env table (s.length + 1 + 1) ('{' :: '{' :: s) = _
  simp only [replaceAllF, List.head?_cons, List.tail_cons]
  rw [if_pos (by simp), h]
  dsimp only
  rcases hrf : replaceFunc env table (mkSpan m K) with ⟨r, calls⟩
  rcases r with v | e | _ <;> simp [replaceAllF]

/-- If `K` does not start with a word run followed by a colon, the span
content `K}}` is parsed with the modifier group absent. -/
theorem cond_no_mod_of_clean {K : Str}
    (h5 : K.takeWhile isWordChar = [] ∨
      (K.dropWhile isWordChar).head? ≠ some ':') :
    ¬((K ++ '}' :: '}' :: []).takeWhile isWordChar ≠ [] ∧
      ((K ++ '}' :: '}' :: []).dropWhile isWordChar).head? = some ':') := by
  rintro ⟨hA, hB⟩
  have hsplit := List.takeWhile_append_dropWhile (p := isWordChar) (l := K)
  have hallR : ∀ c ∈ K.takeWhile isWordChar, isWordChar c = true :=
    fun c hc => List.mem_takeWhile_imp hc
  have hKZ : K ++ '}' :: '}' :: [] =
      K.takeWhile isWordChar ++
        (K.dropWhile isWordChar ++ '}' :: '}' :: []) := by
    rw [← List.append_assoc, hsplit]
  rw [hKZ, takeWhile_append_all _ _ hallR] at hA
  rw [hKZ, dropWhile_append_all _ _ hallR] at hB
  rcases hDc : K.dropWhile isWordChar with _ | ⟨d, D2⟩
  · rw [hDc] at hB
    rw [List.nil_append, List.dropWhile_cons,
      if_neg (by decide : ¬(isWordChar '}' = true))] at hB
    simp at hB
  · have hd : isWordChar d = false := dropWhile_head_false hDc
    rw [hDc] at hA hB
    rw [List.cons_append, List.dropWhile_cons, hd] at hB
    rw [if_neg (by simp)] at hB
    simp only [List.head?_cons, Option.some.injEq] at hB
    rcases h5 with h5 | h5
    · rw [h5, List.nil_append, List.cons_append, List.takeWhile_cons, hd] at hA
      rw [if_neg (by simp)] at hA
      exact hA rfl
    · rw [hDc, List.head?_cons] at h5
      exact h5 (by rw [hB])

/-- Re-parsing a rebuilt span with an explicit modifier recovers the
modifier and key. -/
theorem findStringSubmatch_span_mod {m K : Str}
    (hm : ∀ c ∈ m, isWordChar c = true) (h0 : m ≠ [])
    (hfb : findBody (K ++ '}' :: '}' :: []) = some (K, [])) :
    findStringSubmatch (mkSpan (some m) K) = some (some m, K) := by
  unfold mkSpan
  simp only [findStringSubmatch, List.head?_cons, List.tail_cons]
  rw [if_pos (by simp)]
  have he : matchInner (some m) K ++ '}' :: '}' :: [] =
      m ++ ':' :: (K ++ '}' :: '}' :: []) := by
    simp [matchInner, List.append_assoc]
  rw [he, tryMatch_with_mod hm h0 hfb]

/-- Re-parsing a rebuilt span with the modifier group absent recovers the
bare key. -/
theorem findStringSubmatch_span_abs {K : Str}
    (hfb : findBody (K ++ '}' :: '}' :: []) = some (K, []))
    (hcond : ¬((K ++ '}' :: '}' :: []).takeWhile isWordChar ≠ [] ∧
      ((K ++ '}' :: '}' :: []).dropWhile isWordChar).head? = some ':')) :
    findStringSubmatch (mkSpan none K) = some (none, K) := by
  unfold mkSpan
  simp only [findStringSubmatch, List.head?_cons, List.tail_cons]
  rw [if_pos (by simp)]
  rw [show matchInner none K = K from rfl, tryMatch_no_mod hcond hfb]

/-- A single-record response holding the string value `v`. -/
def okOne (v : String) : QueryResp :=
  QueryResp.ok ⟨1, [[(valueAttr, ⟨some v.data⟩)]]⟩

/-- Collaborators that always fail; used where they must not be reached
successfully. -/
def envUnused : Env :=
  ⟨fun _ _ => QueryResp.err ("unreachable".data),
   fun _ => Except.error ("unreachable".data)⟩

/-- Store used for the unrecognized-modifier counterexamples: it holds
both the literal key `Unknown:Value` and the stripped key `Value`. -/
def envModKey : Env :=
  ⟨fun _ k =>
    if k = "Unknown:Value".data then okOne ("X")
    else if k = "Value".data then okOne ("Y")
    else QueryResp.ok ⟨0, []⟩,
   fun _ => Except.error ("unreachable".data)⟩

/-- Store whose value for `A` is itself a placeholder `{{B}}`. -/
def envLoop : Env :=
  ⟨fun _ k =>
    if k = "A".data then okOne ("{{B}}")
    else if k = "B".data then okOne ("v")
    else QueryResp.ok ⟨0, []⟩,
   fun _ => Except.error ("unreachable".data)⟩

/-- Claim C1 (code-bug evidence): on the spec's own example the SKIP token
`{{SKIP:DECRYPT:Secret}}` is replaced by the empty string — not by the
literal `{{DECRYPT:Secret}}` that the claim, the spec and the program's
own help text (`helpMsg`, src/main.go:56-58) describe — and no external
call is made.  In `replaceFunc` the assignment
`repl = fmt.Sprintf("{{%s}}", matches[i])` is immediately followed by
`return ""`, so the rebuilt placeholder is computed and then discarded. -/
theorem c1_skip_token_replaced_by_empty :
    substitute envUnused ("T".data) ("other={{SKIP:DECRYPT:Secret}}".data) =
      (GoResult.ok ("other=".data), []) := by rfl

/-- Claim C8 (counterexample): `K = "Unknown:Value"` is not a recognized
modifier name, yet `{{GET:K}}` looks up the full `Unknown:Value` while
`{{K}}` looks up only `Value`, so the two tokens resolve differently
under a store holding `X` and `Y` for those two keys. -/
theorem c8_counterexample :
    substitute envModKey ("T".data) ("{{GET:Unknown:Value}}".data) =
        (GoResult.ok ("X".data),
          [Call.query ("T".data) ("Unknown:Value".data)]) ∧
      substitute envModKey ("T".data) ("{{Unknown:Value}}".data) =
        (GoResult.ok ("Y".data), [Call.query ("T".data) ("Value".data)]) ∧
      ("X".data : Str) ≠ "Y".data :=
  ⟨rfl, rfl, by decide⟩

/-- Claim C8 (amended): for every key `K` that is nonempty, contains no
newline and no `}}`, does not end in `}`, and does not itself begin with
a word run followed by a colon, the tokens `{{GET:K}}` and `{{K}}`
resolve to the same replacement under every table and every collaborator
behaviour. -/
theorem c8_amended_get_default_equivalence (env : Env) (table K : Str)
    (h1 : K ≠ []) (h2 : '\n' ∉ K) (h3 : noClose K = true)
    (h4 : K.getLast? ≠ some '}')
    (h5 : K.takeWhile isWordChar = [] ∨
      (K.dropWhile isWordChar).head? ≠ some ':') :
    substitute env table (('{' :: '{' :: 'G' :: 'E' :: 'T' :: ':' :: []) ++ K ++ ('}' :: '}' :: [])) =
      substitute env table (('{' :: '{' :: []) ++ K ++ ('}' :: '}' :: [])) := by
  have hfb := findBody_clean h1 h2 h3 h4 []
  have ht1 : tryMatchAfterBraces
      ("GET".data ++ ':' :: (K ++ '}' :: '}' :: [])) =
      some (some ("GET".data), K, []) :=
    tryMatch_with_mod (by decide) (by decide) hfb
  have ht2 := tryMatch_no_mod (cond_no_mod_of_clean h5) hfb
  rw [show ('{' :: '{' :: 'G' :: 'E' :: 'T' :: ':' :: []) ++ K ++ ('}' :: '}' :: []) =
      '{' :: '{' :: ("GET".data ++ ':' :: (K ++ '}' :: '}' :: [])) from rfl]
  rw [show ('{' :: '{' :: []) ++ K ++ ('}' :: '}' :: []) =
      '{' :: '{' :: (K ++ '}' :: '}' :: []) from rfl]
  rw [substitute_single ht1, substitute_single ht2]
  rw [replaceFunc_eq_dispatch
      (findStringSubmatch_span_mod (by decide) (by decide) hfb)]
  rw [replaceFunc_eq_dispatch
      (findStringSubmatch_span_abs hfb (cond_no_mod_of_clean h5))]
  rw [if_neg (by decide : ¬(modString (some ("GET".data)) = modSkip))]
  rw [if_neg (by decide : ¬(modString (none : Option Str) = modSkip))]
  rcases hq : dynamodbQuery env table K with ⟨r, calls⟩
  rcases r with v | e | _ <;> dsimp only
  rw [if_neg (by decide : ¬(modString (some ("GET".data)) = modDecrypt))]
  rw [if_neg (by decide : ¬(modString (none : Option Str) = modDecrypt))]

/-- Claim C8 (witness): the amended equivalence applied to the concrete
key `Name`. -/
theorem c8_amended_witness :
    substitute envUnused ("T".data)
        (('{' :: '{' :: 'G' :: 'E' :: 'T' :: ':' :: []) ++ "Name".data ++ ('}' :: '}' :: [])) =
      substitute envUnused ("T".data)
        (('{' :: '{' :: []) ++ "Name".data ++ ('}' :: '}' :: [])) :=
  c8_amended_get_default_equivalence envUnused ("T".data) ("Name".data)
    (by decide) (by decide) (by decide) (by decide) (Or.inr (by decide))

/-- Claim C9: a text in which the token grammar matches nowhere is
returned unchanged by the substitution pass, with no external calls, for
every table and every collaborator behaviour. -/
theorem c9_no_placeholder_unchanged (env : Env) (table text : Str)
    (h : hasMatch text = false) :
    substitute env table text = (GoResult.ok text, []) :=
  replaceAllF_no_match text.length text le_rfl h

/-- Claim C9 (witness): applied to a concrete placeholder-free text. -/
theorem c9_witness :
    substitute envUnused ("T".data) ("hello {world}".data) =
      (GoResult.ok ("hello {world}".data), []) :=
  c9_no_placeholder_unchanged envUnused ("T".data) ("hello {world}".data)
    (by decide)

/-- Claim C10 (counterexample): with a store whose value for `A` is the
text `{{B}}`, the document `{{A}}` (which contains no SKIP token)
substitutes to `{{B}}`, and a second pass substitutes that to `v`, so the
second pass is not a no-op. -/
theorem c10_counterexample :
    substitute envLoop ("T".data) ("{{A}}".data) =
        (GoResult.ok ("{{B}}".data), [Call.query ("T".data) ("A".data)]) ∧
      substitute envLoop ("T".data) ("{{B}}".data) =
        (GoResult.ok ("v".data), [Call.query ("T".data) ("B".data)]) ∧
      ("v".data : Str) ≠ "{{B}}".data :=
  ⟨rfl, rfl, by decide⟩

/-- Claim C10 (amended): a second substitution pass is a no-op whenever
the first pass's output contains no remaining placeholder syntax (which
the absence of SKIP tokens does not guarantee: looked-up values may
themselves contain, or concatenate into, placeholder syntax). -/
theorem c10_amended_idempotent_on_token_free_output (env : Env)
    (table text out : Str) (calls : List Call)
    (_h1 : substitute env table text = (GoResult.ok out, calls))
    (h2 : hasMatch out = false) :
    substitute env table out = (GoResult.ok out, []) :=
  replaceAllF_no_match out.length out le_rfl h2

/-- Claim C10 (witness): a first pass producing token-free output, on
which the second pass is the identity. -/
theorem c10_witness :
    substitute envUnused ("T".data) ("ab".data) =
      (GoResult.ok ("ab".data), []) :=
  c10_amended_idempotent_on_token_free_output envUnused ("T".data)
    ("a{{A}}b".data) ("ab".data) [Call.query ("T".data) ("A".data)]
    (by rfl) (by decide)

/-- A lookup error degrades the token to the empty string, with the
single query call as the whole trace. -/
theorem replaceFunc_lookup_err {env : Env} {table input key : Str}
    {modOpt : Option Str} {e : Str}
    (hp : findStringSubmatch input = some (modOpt, key))
    (hns : modString modOpt ≠ modSkip)
    (he : (dynamodbQuery env table key).fst = GoResult.err e) :
    replaceFunc env table input =
      (GoResult.ok [], [Call.query table key]) := by
  rw [replaceFunc_eq_dispatch hp, if_neg hns]
  rcases hq : dynamodbQuery env table key with ⟨r, calls⟩
  have hcalls := dynamodbQuery_calls env table key
  rw [hq] at hcalls he
  dsimp only at hcalls he
  subst hcalls
  subst he
  rfl

/-- On the `DECRYPT` path a retrieved value is piped through
`kmsDecrypt`, whose call trace follows the query call. -/
theorem replaceFunc_decrypt_path {env : Env} {table input key v : Str}
    (hp : findStringSubmatch input = some (some modDecrypt, key))
    (hv : (dynamodbQuery env table key).fst = GoResult.ok v) :
    replaceFunc env table input =
      (match kmsDecrypt env v with
       | (GoResult.ok plain, calls2) =>
         (GoResult.ok plain, Call.query table key :: calls2)
       | (GoResult.err _e2, calls2) =>
         (GoResult.ok [], Call.query table key :: calls2)
       | (GoResult.panic, calls2) =>
         (GoResult.panic, Call.query table key :: calls2)) := by
  rw [replaceFunc_eq_dispatch hp]
  rw [if_neg (by decide : ¬(modString (some modDecrypt) = modSkip))]
  rcases hq : dynamodbQuery env table key with ⟨r, calls⟩
  have hcalls := dynamodbQuery_calls env table key
  rw [hq] at hcalls hv
  dsimp only at hcalls hv
  subst hcalls
  subst hv
  dsimp only
  rw [if_pos (by decide : modString (some modDecrypt) = modDecrypt)]
  rcases hk : kmsDecrypt env v with ⟨kr, kcalls⟩
  rcases kr with p | e2 | _ <;> rfl

/-- A decode failure returns before the decryption collaborator is
consulted. -/
theorem kmsDecrypt_eq_of_decode_none {env : Env} {v : Str}
    (hb : base64DecodeString v = none) :
    kmsDecrypt env v = (GoResult.err ("illegal base64 data".data), []) := by
  unfold kmsDecrypt
  rw [hb]

/-- A decodable value is passed to the decryption collaborator. -/
theorem kmsDecrypt_eq_of_decode_some {env : Env} {v : Str} {blob : Bytes}
    (hb : base64DecodeString v = some blob) :
    kmsDecrypt env v =
      (match env.decrypt blob with
       | Except.error e => (GoResult.err e, [Call.decrypt blob])
       | Except.ok p => (GoResult.ok p, [Call.decrypt blob])) := by
  unfold kmsDecrypt
  rw [hb]

/-- Store used for the C2 counterexample: it contains exactly the
literal key `Unknown:Value` (mapped to `X`) and nothing else. -/
def envLiteralKey : Env :=
  ⟨fun _ k =>
    if k = "Unknown:Value".data then okOne ("X") else QueryResp.ok ⟨0, []⟩,
   fun _ => Except.error ("unreachable".data)⟩

/-- Claim C2 (counterexample): for the token `{{Unknown:Value}}` with a
store containing the literal key `Unknown:Value -> X`, the engine queries
only `Value` (the unrecognized prefix is consumed by the modifier group
and dropped), so the token degrades to the empty string instead of
resolving to `X`. -/
theorem c2_counterexample :
    substitute envLiteralKey ("T".data) ("{{Unknown:Value}}".data) =
        (GoResult.ok [], [Call.query ("T".data) ("Value".data)]) ∧
      ([] : Str) ≠ "X".data :=
  ⟨rfl, by decide⟩

/-- Claim C2 (amended): a token with an unrecognized modifier prefix is
handled like a `GET` token on the remainder: the prefix is stripped and
the lookup key is the key group alone (the text after the first colon);
the resolver's result is returned directly. -/
theorem c2_amended_unrecognized_mod_is_stripped (env : Env)
    (table input mod key : Str)
    (hp : findStringSubmatch input = some (some mod, key))
    (_hg : mod ≠ modGet) (hd : mod ≠ modDecrypt) (hs : mod ≠ modSkip) :
    replaceFunc env table input =
      (match dynamodbQuery env table key with
       | (GoResult.ok v, calls) => (GoResult.ok v, calls)
       | (GoResult.err _e, calls) => (GoResult.ok [], calls)
       | (GoResult.panic, calls) => (GoResult.panic, calls)) := by
  rw [replaceFunc_eq_dispatch hp]
  rw [if_neg (show ¬(modString (some mod) = modSkip) from hs)]
  rcases hq : dynamodbQuery env table key with ⟨r, calls⟩
  rcases r with v | e | _ <;> dsimp only
  rw [if_neg (show ¬(modString (some mod) = modDecrypt) from hd)]

/-- Claim C2 (witness): the amended behaviour on `{{Unknown:Value}}`. -/
theorem c2_amended_witness :
    replaceFunc envLiteralKey ("T".data) ("{{Unknown:Value}}".data) =
      (GoResult.ok [], [Call.query ("T".data) ("Value".data)]) := by
  rw [c2_amended_unrecognized_mod_is_stripped envLiteralKey ("T".data)
    ("{{Unknown:Value}}".data) ("Unknown".data) ("Value".data) rfl
    (by decide) (by decide) (by decide)]
  rfl

/-- Store returning a single record that lacks a string `Value`
attribute: the malformed response behind C3's counterexample and C4. -/
def envNoValue : Env :=
  ⟨fun _ _ => QueryResp.ok ⟨1, [[(valueAttr, ⟨none⟩)]]⟩,
   fun _ => Except.error ("unreachable".data)⟩

/-- Claim C3 (counterexample): the pass does not return a complete result
for every collaborator behaviour — a single-record response without a
string `Value` attribute makes the pass fault (nil dereference) instead
of completing the document. -/
theorem c3_counterexample_pass_aborts :
    (substitute envNoValue ("T".data) ("a{{X}}b".data)).fst =
      GoResult.panic := by rfl

/-- Claim C3 (amended): each of the three failure kinds is token-local —
a lookup failure, a decode failure or a decrypt failure degrade exactly
that token's replacement to the empty string — and, provided every
single-record lookup response carries a string `Value` attribute (see
C4 for the fault without it), the pass always completes with a result
for the whole document. -/
theorem c3_failures_token_local_and_pass_completes :
    (∀ (env : Env) (table input key : Str) (modOpt : Option Str) (e : Str),
        findStringSubmatch input = some (modOpt, key) →
        modString modOpt ≠ modSkip →
        (dynamodbQuery env table key).fst = GoResult.err e →
        replaceFunc env table input =
          (GoResult.ok [], [Call.query table key]))
    ∧ (∀ (env : Env) (table input key v : Str),
        findStringSubmatch input = some (some modDecrypt, key) →
        (dynamodbQuery env table key).fst = GoResult.ok v →
        base64DecodeString v = none →
        replaceFunc env table input =
          (GoResult.ok [], [Call.query table key]))
    ∧ (∀ (env : Env) (table input key v : Str) (blob : Bytes) (e : Str),
        findStringSubmatch input = some (some modDecrypt, key) →
        (dynamodbQuery env table key).fst = GoResult.ok v →
        base64DecodeString v = some blob →
        env.decrypt blob = Except.error e →
        replaceFunc env table input =
          (GoResult.ok [], [Call.query table key, Call.decrypt blob]))
    ∧ (∀ env : Env, WFEnv env → ∀ table text : Str,
        ∃ out calls, substitute env table text =
          (GoResult.ok out, calls)) := by
  refine ⟨?_, ?_, ?_, ?_⟩
  · intro env table input key modOpt e hp hns he
    exact replaceFunc_lookup_err hp hns he
  · intro env table input key v hp hv hb
    rw [replaceFunc_decrypt_path hp hv, kmsDecrypt_eq_of_decode_none hb]
  · intro env table input key v blob e hp hv hb hd
    rw [replaceFunc_decrypt_path hp hv, kmsDecrypt_eq_of_decode_some hb, hd]
  · intro env hwf table text
    exact replaceAllF_ok hwf table text.length text

/-- Claim C3 (witness): a lookup failure on `{{A}}` degrades the token to
the empty string with only the query call in the trace. -/
theorem c3_witness :
    replaceFunc envUnused ("T".data) ("{{A}}".data) =
      (GoResult.ok [], [Call.query ("T".data) ("A".data)]) :=
  c3_failures_token_local_and_pass_completes.1 envUnused ("T".data)
    ("{{A}}".data) ("A".data) none ("unreachable".data) rfl (by decide) rfl

/-- A store always answering with one well-formed record. -/
def envVal : Env :=
  ⟨fun _ _ => okOne ("v"), fun _ => Except.ok ("p".data)⟩

/-- Claim C4: the engine reads the single record's `Value` string
attribute with no nil/presence check: under the precondition that every
single-record response carries a string `Value` attribute the lookup
never panics, and for a response whose single record lacks the attribute
the lookup faults (panics) instead of producing a lookup failure. -/
theorem c4_lookup_total_iff_value_present :
    (∀ (env : Env) (table key : Str), respWF (env.query table key) = true →
        (dynamodbQuery env table key).fst ≠ GoResult.panic)
    ∧ dynamodbQuery envNoValue ("T".data) ("K".data) =
        (GoResult.panic, [Call.query ("T".data) ("K".data)]) := by
  constructor
  · intro env table key h
    rcases dynamodbQuery_ok_or_err env table key h with ⟨s, hv⟩ | ⟨e, hv⟩ <;>
      rw [hv] <;> simp
  · rfl

/-- Claim C4 (witness): a well-formed single-record response never makes
the lookup panic. -/
theorem c4_witness :
    (dynamodbQuery envVal ("T".data) ("K".data)).fst ≠ GoResult.panic :=
  c4_lookup_total_iff_value_present.1 envVal ("T".data) ("K".data)
    (by decide)

/-- A store that always reports zero matching records. -/
def envZero : Env :=
  ⟨fun _ _ => QueryResp.ok ⟨0, []⟩, fun _ => Except.error ("e".data)⟩

/-- Claim C5: a transport error is passed through as a lookup failure; a
record count other than one is a lookup failure whose message carries the
key and the observed count; and a successful value is returned only when
the count is exactly one. -/
theorem c5_exactly_one_record (env : Env) (table key : Str) :
    (∀ e, env.query table key = QueryResp.err e →
        dynamodbQuery env table key =
          (GoResult.err e, [Call.query table key]))
    ∧ (∀ out, env.query table key = QueryResp.ok out → out.Count ≠ 1 →
        dynamodbQuery env table key =
          (GoResult.err (countErrMsg key out.Count), [Call.query table key]))
    ∧ (∀ s, (dynamodbQuery env table key).fst = GoResult.ok s →
        ∃ out, env.query table key = QueryResp.ok out ∧ out.Count = 1) := by
  refine ⟨?_, ?_, ?_⟩
  · intro e he
    unfold dynamodbQuery
    rw [he]
  · intro out ho hc
    unfold dynamodbQuery
    rw [ho]
    dsimp only
    rw [if_pos hc]
  · intro s hs
    unfold dynamodbQuery at hs
    rcases hq : env.query table key with e | out <;> rw [hq] at hs <;>
      dsimp only at hs
    · cases hs
    · by_cases hc : out.Count ≠ 1
      · rw [if_pos hc] at hs
        cases hs
      · exact ⟨out, rfl, not_not.mp hc⟩

/-- Claim C5 (witness): a zero-record response yields the counted lookup
failure. -/
theorem c5_witness :
    dynamodbQuery envZero ("T".data) ("K".data) =
      (GoResult.err (countErrMsg ("K".data) 0),
        [Call.query ("T".data) ("K".data)]) :=
  (c5_exactly_one_record envZero ("T".data) ("K".data)).2.1 ⟨0, []⟩ rfl
    (by decide)

/-- Claim C6: for a `{{DECRYPT:K}}` token the engine first looks up `K`
and then pipes the value through the decryption resolver — the query call
precedes the decrypt call in the trace — and when the looked-up value is
not valid base64 the token degrades to the empty string and the
decryption collaborator is never invoked. -/
theorem c6_decrypt_order_and_decode_failure (env : Env)
    (table input key : Str)
    (hp : findStringSubmatch input = some (some modDecrypt, key)) :
    (∀ v, (dynamodbQuery env table key).fst = GoResult.ok v →
        base64DecodeString v = none →
        replaceFunc env table input =
          (GoResult.ok [], [Call.query table key]))
    ∧ (∀ v blob, (dynamodbQuery env table key).fst = GoResult.ok v →
        base64DecodeString v = some blob →
        replaceFunc env table input =
          (match env.decrypt blob with
           | Except.ok plain =>
             (GoResult.ok plain, [Call.query table key, Call.decrypt blob])
           | Except.error _e2 =>
             (GoResult.ok [], [Call.query table key, Call.decrypt blob]))) := by
  constructor
  · intro v hv hb
    rw [replaceFunc_decrypt_path hp hv, kmsDecrypt_eq_of_decode_none hb]
  · intro v blob hv hb
    rw [replaceFunc_decrypt_path hp hv, kmsDecrypt_eq_of_decode_some hb]
    rcases env.decrypt blob with e | p <;> rfl

/-- A store mapping `P` to the base64 text `aGk=` with a trailing
newline — which Go's decoder ignores — decoding to bytes `[104, 105]`,
whose decryption yields `hi-plain`. -/
def envDec : Env :=
  ⟨fun _ k =>
    if k = "P".data then okOne ("aGk=\n") else QueryResp.ok ⟨0, []⟩,
   fun b =>
    if b = [104, 105] then Except.ok ("hi-plain".data)
    else Except.error ("bad blob".data)⟩

/-- Claim C6 (witness): the lookup-then-decrypt pipeline on
`{{DECRYPT:P}}`, with the query call first in the trace; the retrieved
value carries a trailing newline, which the base64 decoder skips as Go's
does, so the decryption collaborator is reached. -/
theorem c6_witness :
    replaceFunc envDec ("T".data) ("{{DECRYPT:P}}".data) =
      (GoResult.ok ("hi-plain".data),
        [Call.query ("T".data) ("P".data), Call.decrypt [104, 105]]) := by
  rw [(c6_decrypt_order_and_decode_failure envDec ("T".data)
    ("{{DECRYPT:P}}".data) ("P".data) rfl).2 ("aGk=\n".data) [104, 105]
    (by rfl) (by rfl)]
  rfl

/-- Claim C7: a SKIP token triggers no external call at all: the
dispatcher returns before any lookup, so the call trace attributable to
the token is empty. -/
theorem c7_skip_no_external_calls (env : Env) (table input key : Str)
    (modOpt : Option Str)
    (hp : findStringSubmatch input = some (modOpt, key))
    (hs : modString modOpt = modSkip) :
    replaceFunc env table input = (GoResult.ok [], []) := by
  rw [replaceFunc_eq_dispatch hp, if_pos hs]

/-- Claim C7 (witness): no call is made for `{{SKIP:X}}`. -/
theorem c7_witness :
    replaceFunc envUnused ("T".data) ("{{SKIP:X}}".data) =
      (GoResult.ok [], []) :=
  c7_skip_no_external_calls envUnused ("T".data) ("{{SKIP:X}}".data)
    ("X".data) (some ("SKIP".data)) rfl rfl

end Dynsubst
